import Mathlib

/-!
Shallow embedding of the full/reduced parameter-space mapping engine of
`pypesto/problem.py` (class `Problem`), and verification of its stated
properties.

Modelling conventions:
* Array entries are modelled by `Val`: `Val.num q` is a finite float
  (idealised as a rational), `Val.nan` is IEEE NaN, and `Val.undef` is the
  unspecified content of memory returned by `np.empty` before it is written.
  The only arithmetic the code performs on entries is multiplication by
  `np.ones` (i.e. by `1.0`), which preserves every value, so it is modelled
  as the identity on entries.
* Python integers are `Int`; array lengths and `dim_full` are `Nat`
  (`np.empty(n)` with negative `n` raises, so only the `Nat` case exists).
* NumPy fancy-index assignment `a[idxs] = vals` is modelled by `scatter`,
  which performs the assignments sequentially (last write wins, as in
  NumPy).  Negative indices wrap around as in NumPy; an out-of-range index,
  where NumPy raises `IndexError`, leaves the list unchanged here — every
  theorem below only exercises `scatter` on in-range indices, where the two
  semantics agree.  Likewise `idxs.zip vals` truncates to the shorter list,
  where NumPy raises on a genuine length mismatch; the theorems only use
  matching lengths.
* Raising an exception is modelled by `Except.error` / an `Option String`
  error result.  Python mutates `self` in place, so `normalize` is split
  into `normalizeArrays` (the state update, lines 156-174) and
  `normalizeError` (the sanity checks, lines 183-195, which run on the
  already-updated state).  The notification to the objective
  (`objective.update_from_problem`, lines 176-181) is a call on an external
  collaborator and does not change the `Problem` state itself.
-/

/-- An array entry: a finite float value, IEEE NaN, or the unspecified
content of uninitialised `np.empty` memory. -/
inductive Val where
  | undef : Val
  | nan : Val
  | num : ℚ → Val
deriving DecidableEq, Repr

/-- A 2-D guesses array of shape `(rows.length, width)`: `np.empty((g, w))`
keeps its column count `w` even when `g = 0`, so the width is tracked
separately from the rows. -/
structure Guesses where
  width : Nat
  rows : List (List Val)
deriving DecidableEq, Repr

/-- The state of a `pypesto.Problem` (the fields set in `__init__`,
lines 93-124).  The objective collaborator and the opaque prior payload are
external and carry no state that the mapping engine reads back. -/
structure Problem where
  dim_full : Nat
  lb_full : List Val
  ub_full : List Val
  x_fixed_indices : List Int
  x_fixed_vals : List Val
  x_guesses_full : Guesses
  x_names : List String
  x_scales : List String
deriving DecidableEq, Repr

/-- `dim` property (lines 142-144): `self.dim_full - len(self.x_fixed_indices)`
as a Python integer (may be negative for degenerate states). -/
def Problem.dim (p : Problem) : Int :=
  (p.dim_full : Int) - p.x_fixed_indices.length

/-- `x_free_indices` property (lines 146-148):
`sorted(set(range(0, dim_full)) - set(x_fixed_indices))`.  The elements are
the members of `range dim_full` not in `x_fixed_indices`, in ascending
order, which is exactly this filter of `List.range`. -/
def Problem.x_free_indices (p : Problem) : List Nat :=
  (List.range p.dim_full).filter (fun i => decide ((i : Int) ∉ p.x_fixed_indices))

/-- NumPy fancy-index read `l[idxs]` for an in-range index list (the code
only gathers with `x_free_indices`, which are in range; the default is
never reached there). -/
def gather (l : List Val) (idxs : List Nat) : List Val :=
  idxs.map (fun i => l.getD i Val.undef)

/-- Single NumPy element assignment `l[i] = v` with wrap-around for negative
`i`; out of range, where NumPy raises `IndexError`, the list is returned
unchanged (no theorem exercises that case). -/
def setAtInt (l : List Val) (i : Int) (v : Val) : List Val :=
  let j : Int := if i < 0 then i + l.length else i
  if 0 ≤ j ∧ j < l.length then l.set j.toNat v else l

/-- NumPy fancy-index assignment `l[idxs] = vals`: sequential element
assignments, last write wins. -/
def scatter (l : List Val) (idxs : List Int) (vals : List Val) : List Val :=
  (idxs.zip vals).foldl (fun acc iv => setAtInt acc iv.1 iv.2) l

/-- `lb` property (lines 130-132): `self.lb_full[self.x_free_indices]`. -/
def Problem.lb (p : Problem) : List Val :=
  gather p.lb_full p.x_free_indices

/-- `ub` property (lines 134-136): `self.ub_full[self.x_free_indices]`. -/
def Problem.ub (p : Problem) : List Val :=
  gather p.ub_full p.x_free_indices

/-- The bound-normalisation step of `normalize`, identical for `lb_full`
(lines 156-161) and `ub_full` (lines 163-168).

If the array has a single entry it is broadcast to length `dimFull` by
`self.lb_full * np.ones(self.dim_full)` (multiplication by `1.0` preserves
each entry); otherwise, if its length is not `dimFull`, the code sets
`self.lb_full = np.empty(self.dim_full)` and only then executes
`self.lb_full[self.x_free_indices] = self.lb` — at that point the property
`self.lb` reads the freshly allocated array, so the free positions receive
their own uninitialised contents — and finally
`self.lb_full[self.x_fixed_indices] = self.x_fixed_vals`. -/
def normalizeBound (dimFull : Nat) (freeIdx : List Nat) (fixedIdx : List Int)
    (fixedVals : List Val) (b : List Val) : List Val :=
  if b.length = 1 then
    List.replicate dimFull (b.headD Val.undef)
  else if b.length ≠ dimFull then
    let e := List.replicate dimFull Val.undef
    let e1 := scatter e (freeIdx.map (Nat.cast : Nat → Int)) (gather e freeIdx)
    scatter e1 fixedIdx fixedVals
  else b

/-- The state-updating part of `normalize` (lines 156-174): normalise both
bounds and, if the guesses column count differs from `dim_full`, allocate a
fresh NaN-filled matrix of width `dim_full` and scatter the old rows into
the `x_free_indices` columns (here the old attribute is read before being
overwritten, via the local variable `x_guesses`). -/
def normalizeArrays (p : Problem) : Problem :=
  let freeI : List Int := p.x_free_indices.map (Nat.cast : Nat → Int)
  let lb1 : List Val :=
    normalizeBound p.dim_full p.x_free_indices p.x_fixed_indices
      p.x_fixed_vals p.lb_full
  let ub1 : List Val :=
    normalizeBound p.dim_full p.x_free_indices p.x_fixed_indices
      p.x_fixed_vals p.ub_full
  let g1 : Guesses :=
    if p.x_guesses_full.width ≠ p.dim_full then
      { width := p.dim_full
        rows := p.x_guesses_full.rows.map
          (fun r => scatter (List.replicate p.dim_full Val.nan) freeI r) }
    else p.x_guesses_full
  { p with lb_full := lb1, ub_full := ub1, x_guesses_full := g1 }

/-- The sanity checks at the end of `normalize` (lines 183-195), run on the
already-updated state; `some msg` models `raise AssertionError(msg)`. -/
def normalizeError (p : Problem) : Option String :=
  if p.lb_full.length ≠ p.dim_full then
    some "lb_full dimension invalid."
  else if p.ub_full.length ≠ p.dim_full then
    some "ub_full dimension invalid."
  else if p.x_scales.length ≠ p.dim_full then
    some "x_scales dimension invalid."
  else if p.x_names.length ≠ p.dim_full then
    some "x_names must be of length dim_full."
  else if p.x_fixed_indices.length ≠ p.x_fixed_vals.length then
    some "x_fixed_indices and x_fixed_vals musti have the same length."
  else
    none

/-- `normalize` (lines 150-195): update the arrays, then run the sanity
checks on the updated state (the in-place mutation is complete even when an
error is raised). -/
def Problem.normalize (p : Problem) : Problem × Option String :=
  let q := normalizeArrays p
  (q, normalizeError q)

/-- One iteration of the loop in `fix_parameters` (lines 211-220): an index
already fixed has its paired value overwritten in place, a new index is
appended together with its value. -/
def fixOnePair (fixed : List Int) (vals : List Val) (i : Int) (v : Val) :
    List Int × List Val :=
  if i ∈ fixed then (fixed, vals.set (fixed.indexOf i) v)
  else (fixed ++ [i], vals ++ [v])

/-- `fix_parameters` (lines 197-222) on already-listified arguments (a
single index/value is wrapped into a one-element list by the code); the
loop pairs `parameter_indices[k]` with `parameter_vals[k]`, then
`normalize` runs. -/
def Problem.fix_parameters (p : Problem) (parameter_indices : List Int)
    (parameter_vals : List Val) : Problem :=
  let fv := (parameter_indices.zip parameter_vals).foldl
    (fun acc iv => fixOnePair acc.1 acc.2 iv.1 iv.2)
    (p.x_fixed_indices, p.x_fixed_vals)
  normalizeArrays { p with x_fixed_indices := fv.1, x_fixed_vals := fv.2 }

/-- One iteration of the loop in `unfix_parameters` (lines 236-240): an
index currently fixed is removed together with its paired value (by
position); other indices are silently ignored. -/
def unfixOne (fixed : List Int) (vals : List Val) (i : Int) :
    List Int × List Val :=
  if i ∈ fixed then
    let k := fixed.indexOf i
    (fixed.eraseIdx k, vals.eraseIdx k)
  else (fixed, vals)

/-- `unfix_parameters` (lines 224-242) on an already-listified argument;
the loop frees each listed index, then `normalize` runs. -/
def Problem.unfix_parameters (p : Problem) (parameter_indices : List Int) :
    Problem :=
  let fv := parameter_indices.foldl
    (fun acc i => unfixOne acc.1 acc.2 i)
    (p.x_fixed_indices, p.x_fixed_vals)
  normalizeArrays { p with x_fixed_indices := fv.1, x_fixed_vals := fv.2 }

/-- An n-dimensional array argument of `get_full_vector` as the code
distinguishes it: a 1-D vector or a 2-D batch whose last axis is the
parameter axis.  `len(x)` in Python is the length of the first axis. -/
inductive Arr where
  | vec : List Val → Arr
  | mat : List (List Val) → Arr
deriving DecidableEq, Repr

/-- Python `len` of an array: the length of its first axis. -/
def Arr.len : Arr → Nat
  | .vec l => l.length
  | .mat g => g.length

/-- The expansion performed by `get_full_vector` (lines 272-277) on one row
along the last axis: `np.zeros(... + (dim_full,))` overwritten with NaN,
the row scattered into the `x_free_indices` positions, and, when
`x_fixed_vals` is supplied, that fill scattered into the `x_fixed_indices`
positions (otherwise they stay NaN). -/
def gfvRow (p : Problem) (f : Option (List Val)) (r : List Val) : List Val :=
  let base := List.replicate p.dim_full Val.nan
  let s := scatter base (p.x_free_indices.map (Nat.cast : Nat → Int)) r
  match f with
  | none => s
  | some fv => scatter s p.x_fixed_indices fv

/-- `get_full_vector` (lines 244-277) restricted to a 1-D argument: an
input of first-axis length `dim_full` is returned unchanged, anything else
is expanded along the last axis.  (`x is None` returns `None` and is not a
vector input.) -/
def Problem.get_full_vector (p : Problem) (x : List Val)
    (x_fixed_vals : Option (List Val)) : List Val :=
  if x.length = p.dim_full then x else gfvRow p x_fixed_vals x

/-- `get_full_vector` (lines 244-277) on an n-dimensional argument: the
dispatch compares `len(x)` — the FIRST-axis length — with `dim_full`, and
otherwise expands along the LAST axis (`x_full[..., free] = x`,
`x_full[..., fixed] = x_fixed_vals` broadcast over the leading axes). -/
def Problem.get_full_vector_nd (p : Problem) (x : Arr)
    (x_fixed_vals : Option (List Val)) : Arr :=
  if x.len = p.dim_full then x
  else
    match x with
    | .vec l => .vec (gfvRow p x_fixed_vals l)
    | .mat g => .mat (g.map (gfvRow p x_fixed_vals))

/-- `get_reduced_vector` (lines 305-323): an input whose length equals
`dim` is returned unchanged, otherwise `[x_full[idx] for idx in
self.x_free_indices]` is built. -/
def Problem.get_reduced_vector (p : Problem) (x_full : List Val) : List Val :=
  if (x_full.length : Int) = p.dim then x_full
  else gather x_full p.x_free_indices

/-- `full_index_to_free_index` (lines 346-361): raise `ValueError` when the
index is fixed, else return `full_index - sum(fixed_indices < full_index)`
(the comparison counts list entries, with multiplicity, that are smaller
than `full_index`). -/
def Problem.full_index_to_free_index (p : Problem) (full_index : Int) :
    Except String Int :=
  if full_index ∈ p.x_fixed_indices then
    Except.error "Cannot compute index in free vector: Index is fixed."
  else
    Except.ok (full_index -
      (p.x_fixed_indices.countP (fun j => decide (j < full_index)) : Int))

/-- The name-selection logic of `__init__` (lines 116-120): if the
objective declares `x_names` (is not `None`) those are used; otherwise the
caller-supplied names are used when present; otherwise the default
`['x0', 'x1', ...]`. -/
def initXNames (objectiveNames : Option (List String))
    (xNames : Option (List String)) (dimFull : Nat) : List String :=
  match objectiveNames with
  | some ns => ns
  | none =>
    match xNames with
    | some ns => ns
    | none => (List.range dimFull).map (fun j => "x" ++ toString j)

/-! ## Basic properties of the scatter/gather primitives -/

theorem setAtInt_length (l : List Val) (i : Int) (v : Val) :
    (setAtInt l i v).length = l.length := by
  unfold setAtInt
  dsimp only
  split <;> split <;> simp

theorem scatter_nil_right (l : List Val) (idxs : List Int) :
    scatter l idxs [] = l := by
  unfold scatter
  rw [List.zip_nil_right]
  rfl

theorem scatter_cons (l : List Val) (i : Int) (is : List Int) (v : Val)
    (vs : List Val) :
    scatter l (i :: is) (v :: vs) = scatter (setAtInt l i v) is vs := by
  unfold scatter
  rw [List.zip_cons_cons, List.foldl_cons]

theorem scatter_length (idxs : List Int) (vals : List Val) (l : List Val) :
    (scatter l idxs vals).length = l.length := by
  induction idxs generalizing vals l with
  | nil => rfl
  | cons i is ih =>
    cases vals with
    | nil => rw [scatter_nil_right]
    | cons v vs => rw [scatter_cons, ih, setAtInt_length]

theorem getD_setAtInt_ne (l : List Val) (i : Int) (v : Val) (j : Nat)
    (d : Val) (hi : 0 ≤ i) (hne : i ≠ (j : Int)) :
    (setAtInt l i v).getD j d = l.getD j d := by
  unfold setAtInt
  dsimp only
  rw [if_neg (not_lt.mpr hi)]
  split
  · rw [List.getD_eq_getElem?_getD, List.getD_eq_getElem?_getD,
      List.getElem?_set_ne]
    intro hc
    exact hne (by rw [← hc, Int.toNat_of_nonneg hi])
  · rfl

theorem getD_setAtInt_self (l : List Val) (i : Int) (v : Val) (d : Val)
    (hi : 0 ≤ i) (hlt : i < l.length) :
    (setAtInt l i v).getD i.toNat d = v := by
  unfold setAtInt
  dsimp only
  rw [if_neg (not_lt.mpr hi), if_pos ⟨hi, hlt⟩]
  rw [List.getD_eq_getElem?_getD, List.getElem?_set_self (by omega)]
  rfl

theorem scatter_getD_not_mem (idxs : List Int) (vals : List Val)
    (l : List Val) (j : Nat) (d : Val)
    (hpos : ∀ a ∈ idxs, 0 ≤ a) (hj : (j : Int) ∉ idxs) :
    (scatter l idxs vals).getD j d = l.getD j d := by
  induction idxs generalizing vals l with
  | nil => rfl
  | cons i is ih =>
    cases vals with
    | nil => rw [scatter_nil_right]
    | cons v vs =>
      rw [scatter_cons]
      rw [ih vs _ (fun a ha => hpos a (List.mem_cons_of_mem _ ha))
        (fun hc => hj (List.mem_cons_of_mem _ hc))]
      exact getD_setAtInt_ne l i v j d (hpos i (List.mem_cons_self _ _))
        (fun hc => hj (hc ▸ List.mem_cons_self _ _))

theorem scatter_map_getD (free : List Nat) (vals : List Val) (l : List Val)
    (k : Nat) (d : Val) (hnd : free.Nodup)
    (hb : ∀ a ∈ free, a < l.length)
    (hk : k < free.length) (hkv : k < vals.length) :
    (scatter l (free.map (Nat.cast : Nat → Int)) vals).getD (free.getD k 0) d =
      vals.getD k d := by
  induction free generalizing vals l k with
  | nil => exact absurd hk (by simp)
  | cons a as ih =>
    cases vals with
    | nil => exact absurd hkv (by simp)
    | cons v vs =>
      rw [List.map_cons, scatter_cons]
      cases k with
      | zero =>
        rw [List.getD_cons_zero, List.getD_cons_zero]
        have hnotin : ((a : Int)) ∉ as.map (Nat.cast : Nat → Int) := by
          intro hc
          rcases List.mem_map.mp hc with ⟨b, hb', he⟩
          have : b = a := by omega
          exact (List.nodup_cons.mp hnd).1 (this ▸ hb')
        rw [scatter_getD_not_mem _ _ _ _ _
          (by intro x hx; rcases List.mem_map.mp hx with ⟨b, _, he⟩; omega)
          hnotin]
        have := getD_setAtInt_self l (a : Int) v d (by omega)
          (by have := hb a (List.mem_cons_self _ _); omega)
        rwa [Int.toNat_natCast] at this
      | succ k =>
        rw [List.getD_cons_succ, List.getD_cons_succ]
        exact ih vs (setAtInt l a v) k (List.nodup_cons.mp hnd).2
          (by intro b hb'; rw [setAtInt_length];
              exact hb b (List.mem_cons_of_mem _ hb'))
          (by simpa using hk) (by simpa using hkv)

/-! ## Properties of the derived free-index list -/

theorem mem_x_free_indices (p : Problem) (j : Nat) :
    j ∈ p.x_free_indices ↔ j < p.dim_full ∧ (j : Int) ∉ p.x_fixed_indices := by
  simp [Problem.x_free_indices, List.mem_filter, List.mem_range]

theorem x_free_indices_nodup (p : Problem) : p.x_free_indices.Nodup :=
  List.Nodup.filter _ (List.nodup_range _)

theorem x_free_indices_lt (p : Problem) :
    ∀ a ∈ p.x_free_indices, a < p.dim_full :=
  fun a ha => ((mem_x_free_indices p a).mp ha).1

theorem x_free_indices_sorted (p : Problem) :
    List.Pairwise (· < ·) p.x_free_indices :=
  List.Pairwise.filter _ (List.pairwise_lt_range _)

theorem x_free_indices_length (p : Problem)
    (hnd : p.x_fixed_indices.Nodup)
    (hrange : ∀ i ∈ p.x_fixed_indices, 0 ≤ i ∧ i < (p.dim_full : Int)) :
    p.x_free_indices.length + p.x_fixed_indices.length = p.dim_full := by
  have hperm := List.filter_append_perm
    (fun (i : Nat) => decide ((i : Int) ∉ p.x_fixed_indices))
    (List.range p.dim_full)
  have hlen := hperm.length_eq
  rw [List.length_append, List.length_range] at hlen
  have hnd2 : (p.x_fixed_indices.map Int.toNat).Nodup :=
    List.Nodup.map_on
      (fun x hx y hy hxy => by
        have hx0 := (hrange x hx).1
        have hy0 := (hrange y hy).1
        omega)
      hnd
  have hcompl :
      ((List.range p.dim_full).filter
        (fun (i : Nat) => !decide ((i : Int) ∉ p.x_fixed_indices))).Perm
        (p.x_fixed_indices.map Int.toNat) := by
    refine (List.perm_ext_iff_of_nodup
      (List.Nodup.filter _ (List.nodup_range _)) hnd2).mpr (fun j => ?_)
    simp only [List.mem_filter, List.mem_range, Bool.not_eq_true',
      decide_eq_false_iff_not, not_not, List.mem_map]
    constructor
    · rintro ⟨hj, hmem⟩
      exact ⟨(j : Int), hmem, by omega⟩
    · rintro ⟨a, ha, haj⟩
      have h0 := hrange a ha
      have hja : ((j : Nat) : Int) = a := by omega
      exact ⟨by omega, by rw [hja]; exact ha⟩
  have hlen2 := hcompl.length_eq
  rw [List.length_map] at hlen2
  unfold Problem.x_free_indices
  omega

/-! ## Properties of renormalisation -/

theorem normalizeBound_length (dimFull : Nat) (freeIdx : List Nat)
    (fixedIdx : List Int) (fixedVals : List Val) (b : List Val) :
    (normalizeBound dimFull freeIdx fixedIdx fixedVals b).length = dimFull := by
  unfold normalizeBound
  split
  · simp
  · split
    · dsimp only
      rw [scatter_length, scatter_length, List.length_replicate]
    · omega

theorem normalizeBound_id (dimFull : Nat) (freeIdx : List Nat)
    (fixedIdx : List Int) (fixedVals : List Val) (b : List Val)
    (h : b.length = dimFull) :
    normalizeBound dimFull freeIdx fixedIdx fixedVals b = b := by
  unfold normalizeBound
  by_cases h1 : b.length = 1
  · rw [if_pos h1]
    obtain ⟨a, ha⟩ := List.length_eq_one.mp h1
    subst ha
    have hd : dimFull = 1 := by simpa using h.symm
    rw [hd]
    rfl
  · rw [if_neg h1, if_neg (not_not_intro h)]

theorem normalizeArrays_lb (p : Problem) :
    (normalizeArrays p).lb_full =
      normalizeBound p.dim_full p.x_free_indices p.x_fixed_indices
        p.x_fixed_vals p.lb_full := rfl

theorem normalizeArrays_ub (p : Problem) :
    (normalizeArrays p).ub_full =
      normalizeBound p.dim_full p.x_free_indices p.x_fixed_indices
        p.x_fixed_vals p.ub_full := rfl

theorem normalizeArrays_guesses (p : Problem) :
    (normalizeArrays p).x_guesses_full =
      if p.x_guesses_full.width ≠ p.dim_full then
        { width := p.dim_full
          rows := p.x_guesses_full.rows.map
            (fun r => scatter (List.replicate p.dim_full Val.nan)
              (p.x_free_indices.map (Nat.cast : Nat → Int)) r) }
      else p.x_guesses_full := rfl

theorem normalizeArrays_width (p : Problem) :
    (normalizeArrays p).x_guesses_full.width = p.dim_full := by
  rw [normalizeArrays_guesses]
  split
  · rfl
  · omega

theorem normalizeArrays_lb_length (p : Problem) :
    (normalizeArrays p).lb_full.length = p.dim_full := by
  rw [normalizeArrays_lb, normalizeBound_length]

theorem normalizeArrays_ub_length (p : Problem) :
    (normalizeArrays p).ub_full.length = p.dim_full := by
  rw [normalizeArrays_ub, normalizeBound_length]

theorem normalizeArrays_id (p : Problem)
    (hlb : p.lb_full.length = p.dim_full)
    (hub : p.ub_full.length = p.dim_full)
    (hg : p.x_guesses_full.width = p.dim_full) :
    normalizeArrays p = p := by
  unfold normalizeArrays
  dsimp only
  rw [normalizeBound_id _ _ _ _ _ hlb, normalizeBound_id _ _ _ _ _ hub,
    if_neg (not_not_intro hg)]

/-! ## Properties of the row expansion used by get_full_vector -/

theorem gfvRow_length (p : Problem) (f : Option (List Val)) (r : List Val) :
    (gfvRow p f r).length = p.dim_full := by
  unfold gfvRow
  cases f with
  | none =>
    dsimp only
    rw [scatter_length, List.length_replicate]
  | some fv =>
    dsimp only
    rw [scatter_length, scatter_length, List.length_replicate]

theorem gfvRow_free (p : Problem) (f : Option (List Val)) (r : List Val)
    (m : Nat) (d : Val)
    (hpos : ∀ i ∈ p.x_fixed_indices, 0 ≤ i)
    (hm : m < p.x_free_indices.length) (hmr : m < r.length) :
    (gfvRow p f r).getD (p.x_free_indices.getD m 0) d = r.getD m d := by
  have hmem : p.x_free_indices.getD m 0 ∈ p.x_free_indices := by
    rw [List.getD_eq_getElem _ _ hm]
    exact List.getElem_mem ..
  have hcore := scatter_map_getD p.x_free_indices r
    (List.replicate p.dim_full Val.nan) m d (x_free_indices_nodup p)
    (by
      intro a ha
      rw [List.length_replicate]
      exact x_free_indices_lt p a ha)
    hm hmr
  unfold gfvRow
  cases f with
  | none => exact hcore
  | some fv =>
    dsimp only
    rw [scatter_getD_not_mem _ _ _ _ _ hpos
      ((mem_x_free_indices p _).mp hmem).2]
    exact hcore

theorem gfvRow_fixed_nan (p : Problem) (r : List Val) (j : Nat) (d : Val)
    (hrange : ∀ i ∈ p.x_fixed_indices, 0 ≤ i ∧ i < (p.dim_full : Int))
    (hj : (j : Int) ∈ p.x_fixed_indices) :
    (gfvRow p none r).getD j d = Val.nan := by
  unfold gfvRow
  dsimp only
  rw [scatter_getD_not_mem _ _ _ _ _
    (by
      intro x hx
      rcases List.mem_map.mp hx with ⟨b, _, he⟩
      omega)
    (by
      intro hc
      rcases List.mem_map.mp hc with ⟨b, hbmem, he⟩
      have hbj : b = j := by omega
      exact ((mem_x_free_indices p b).mp hbmem).2 (by rw [hbj]; exact hj))]
  have hjlt : j < p.dim_full := by
    have := (hrange _ hj).2
    omega
  rw [List.getD_eq_getElem?_getD, List.getElem?_replicate, if_pos hjlt]
  rfl

/-! ## List helpers for the fix/unfix mutation -/

theorem indexOf_append_not_mem (l : List Int) (i : Int) (h : i ∉ l) :
    (l ++ [i]).indexOf i = l.length := by
  induction l with
  | nil => simp [List.indexOf_cons]
  | cons a as ih =>
    have hne : a ≠ i := fun hc => h (hc ▸ List.mem_cons_self _ _)
    rw [List.cons_append, List.indexOf_cons]
    have hbe : (a == i) = false := beq_eq_false_iff_ne.mpr hne
    rw [hbe, cond_false, ih (fun hm => h (List.mem_cons_of_mem _ hm))]
    simp

theorem set_getElem_self (l : List Val) (k : Nat) (hk : k < l.length) :
    l.set k l[k] = l := by
  refine List.ext_getElem (by simp) (fun n h1 h2 => ?_)
  by_cases hn : k = n
  · subst hn
    rw [List.getElem_set_self]
  · rw [List.getElem_set_ne hn]

/-! ## Concrete states used in witnesses (Scenarios A/B of the spec) -/

/-- Scenario B's state: `dim_full = 3`, bounds `[0,0,0]` / `[1,1,1]`,
parameter 1 fixed at the value 5. -/
def scenB : Problem :=
  { dim_full := 3
    lb_full := [Val.num 0, Val.num 0, Val.num 0]
    ub_full := [Val.num 1, Val.num 1, Val.num 1]
    x_fixed_indices := [1]
    x_fixed_vals := [Val.num 5]
    x_guesses_full := { width := 3, rows := [] }
    x_names := ["x0", "x1", "x2"]
    x_scales := ["lin", "lin", "lin"] }

/-! ## C1 -/

/-- C1: for every ParameterSpace state whose `x_fixed_indices` is a
duplicate-free subset of `[0, dim_full)`: the derived `x_free_indices` and
`x_fixed_indices` are disjoint, their union is exactly
`{0, …, dim_full − 1}`, `x_free_indices` is in ascending order, and
`dim + len(x_fixed_indices) = dim_full` (both as the stored `dim` value and
as list lengths). -/
theorem C1_partition_invariant (p : Problem)
    (hnd : p.x_fixed_indices.Nodup)
    (hrange : ∀ i ∈ p.x_fixed_indices, 0 ≤ i ∧ i < (p.dim_full : Int)) :
    (∀ j : Nat, ¬(j ∈ p.x_free_indices ∧ (j : Int) ∈ p.x_fixed_indices)) ∧
    (∀ i : Int,
      ((∃ j ∈ p.x_free_indices, (j : Int) = i) ∨ i ∈ p.x_fixed_indices) ↔
        0 ≤ i ∧ i < (p.dim_full : Int)) ∧
    List.Sorted (· < ·) p.x_free_indices ∧
    p.dim + p.x_fixed_indices.length = (p.dim_full : Int) ∧
    p.x_free_indices.length + p.x_fixed_indices.length = p.dim_full := by
  refine ⟨?_, ?_, x_free_indices_sorted p, ?_,
    x_free_indices_length p hnd hrange⟩
  · rintro j ⟨hf, hx⟩
    exact ((mem_x_free_indices p j).mp hf).2 hx
  · intro i
    constructor
    · rintro (⟨j, hj, rfl⟩ | hi)
      · have h1 := ((mem_x_free_indices p j).mp hj).1
        exact ⟨by omega, by omega⟩
      · exact hrange i hi
    · rintro ⟨h0, hlt⟩
      by_cases hfx : i ∈ p.x_fixed_indices
      · exact Or.inr hfx
      · refine Or.inl ⟨i.toNat, ?_, by omega⟩
        rw [mem_x_free_indices]
        exact ⟨by omega, by rw [Int.toNat_of_nonneg h0]; exact hfx⟩
  · unfold Problem.dim
    omega

/-- Witness for C1: the hypotheses hold at Scenario B's state and the
theorem applies there. -/
theorem C1_partition_invariant_witness :
    scenB.x_fixed_indices.Nodup ∧
    (∀ i ∈ scenB.x_fixed_indices, 0 ≤ i ∧ i < (scenB.dim_full : Int)) ∧
    List.Sorted (· < ·) scenB.x_free_indices ∧
    scenB.x_free_indices.length + scenB.x_fixed_indices.length =
      scenB.dim_full :=
  ⟨by decide, by decide,
    (C1_partition_invariant scenB (by decide) (by decide)).2.2.1,
    (C1_partition_invariant scenB (by decide) (by decide)).2.2.2.2⟩

/-! ## C3 -/

/-- C3: round trip on the free subspace: for a well-formed partition and
any reduced vector `x` of length `dim`,
`get_reduced_vector (get_full_vector x f) = x` elementwise, for any choice
of the fill argument `f` (including `None`). -/
theorem C3_round_trip (p : Problem) (x : List Val) (f : Option (List Val))
    (hnd : p.x_fixed_indices.Nodup)
    (hrange : ∀ i ∈ p.x_fixed_indices, 0 ≤ i ∧ i < (p.dim_full : Int))
    (hx : (x.length : Int) = p.dim) :
    p.get_reduced_vector (p.get_full_vector x f) = x := by
  have hlen := x_free_indices_length p hnd hrange
  have hxfree : x.length = p.x_free_indices.length := by
    unfold Problem.dim at hx
    omega
  by_cases hfull : x.length = p.dim_full
  · unfold Problem.get_full_vector
    rw [if_pos hfull]
    unfold Problem.get_reduced_vector
    rw [if_pos hx]
  · unfold Problem.get_full_vector
    rw [if_neg hfull]
    unfold Problem.get_reduced_vector
    rw [if_neg (by
      rw [gfvRow_length]
      unfold Problem.dim
      omega)]
    unfold gather
    refine List.ext_getElem (by rw [List.length_map]; omega)
      (fun n h1 h2 => ?_)
    rw [List.getElem_map]
    have hn : n < p.x_free_indices.length := by simpa using h1
    rw [show p.x_free_indices[n] = p.x_free_indices.getD n 0 from
      (List.getD_eq_getElem _ _ hn).symm]
    rw [gfvRow_free p f x n Val.undef (fun i hi => (hrange i hi).1) hn
      (by omega)]
    exact List.getD_eq_getElem x Val.undef (by omega)

/-- Witness for C3: Scenario B's state, the reduced vector `[10, 20]` and
the fill `[5]`. -/
theorem C3_round_trip_witness :
    scenB.get_reduced_vector
      (scenB.get_full_vector [Val.num 10, Val.num 20] (some [Val.num 5])) =
      [Val.num 10, Val.num 20] :=
  C3_round_trip scenB [Val.num 10, Val.num 20] (some [Val.num 5])
    (by decide) (by decide) (by decide)

/-! ## C4 -/

/-- C4: `full_index_to_free_index(i)` raises the InvalidIndex error exactly
when `i` is currently fixed; for `i` not fixed it returns `i` minus the
number of fixed indices smaller than `i`.  In Scenario B's state, input `1`
raises and input `2` returns `1`. -/
theorem C4_full_index_to_free_index (p : Problem) :
    (∀ i : Int,
      (∃ m, p.full_index_to_free_index i = Except.error m) ↔
        i ∈ p.x_fixed_indices) ∧
    (∀ i : Int, i ∉ p.x_fixed_indices →
      p.full_index_to_free_index i =
        Except.ok (i - (p.x_fixed_indices.countP
          (fun j => decide (j < i)) : Int))) ∧
    (∃ m, scenB.full_index_to_free_index 1 = Except.error m) ∧
    scenB.full_index_to_free_index 2 = Except.ok 1 := by
  refine ⟨?_, ?_, ⟨_, rfl⟩, rfl⟩
  · intro i
    unfold Problem.full_index_to_free_index
    by_cases hi : i ∈ p.x_fixed_indices
    · rw [if_pos hi]
      exact iff_of_true ⟨_, rfl⟩ hi
    · rw [if_neg hi]
      refine iff_of_false ?_ hi
      rintro ⟨m, hm⟩
      exact Except.noConfusion hm
  · intro i hi
    unfold Problem.full_index_to_free_index
    rw [if_neg hi]

/-- Witness for C4: the reduced position of free full-index `2` in Scenario
B's state. -/
theorem C4_full_index_to_free_index_witness :
    scenB.full_index_to_free_index 2 =
      Except.ok (2 - (scenB.x_fixed_indices.countP
        (fun j => decide (j < 2)) : Int)) :=
  (C4_full_index_to_free_index scenB).2.1 2 (by decide)

/-! ## C10 -/

/-- C10: `full_index_to_free_index` performs no range check: every `i` not
in `x_fixed_indices` — negative or at least `dim_full` included — yields
`Except.ok (i - count of fixed indices below i)` and never the error. -/
theorem C10_no_range_check (p : Problem) (i : Int)
    (h : i ∉ p.x_fixed_indices) :
    p.full_index_to_free_index i =
      Except.ok (i - (p.x_fixed_indices.countP
        (fun j => decide (j < i)) : Int)) ∧
    ∀ m, p.full_index_to_free_index i ≠ Except.error m := by
  unfold Problem.full_index_to_free_index
  rw [if_neg h]
  exact ⟨rfl, fun m hm => Except.noConfusion hm⟩

/-- Witness for C10: out-of-range inputs `-3` and `7` on Scenario B's
state (`dim_full = 3`) return without error. -/
theorem C10_no_range_check_witness :
    ((-3 : Int) < 0 ∧
      scenB.full_index_to_free_index (-3) = Except.ok (-3)) ∧
    ((scenB.dim_full : Int) ≤ 7 ∧
      scenB.full_index_to_free_index 7 = Except.ok 6) :=
  ⟨⟨by decide,
      (C10_no_range_check scenB (-3) (by decide)).1.trans
        (congrArg Except.ok (by decide))⟩,
    ⟨by decide,
      (C10_no_range_check scenB 7 (by decide)).1.trans
        (congrArg Except.ok (by decide))⟩⟩

/-! ## C5 -/

theorem fix_parameters_single (p : Problem) (i : Int) (v : Val) :
    p.fix_parameters [i] [v] =
      normalizeArrays { p with
        x_fixed_indices := (fixOnePair p.x_fixed_indices p.x_fixed_vals i v).1
        x_fixed_vals := (fixOnePair p.x_fixed_indices p.x_fixed_vals i v).2 } :=
  rfl

theorem unfix_parameters_single (p : Problem) (j : Int) :
    p.unfix_parameters [j] =
      normalizeArrays { p with
        x_fixed_indices := (unfixOne p.x_fixed_indices p.x_fixed_vals j).1
        x_fixed_vals := (unfixOne p.x_fixed_indices p.x_fixed_vals j).2 } :=
  rfl

theorem fixOnePair_idem (fixed : List Int) (vals : List Val) (i : Int)
    (v : Val) (hfv : fixed.length = vals.length) :
    fixOnePair (fixOnePair fixed vals i v).1 (fixOnePair fixed vals i v).2
      i v = fixOnePair fixed vals i v := by
  by_cases hi : i ∈ fixed
  · have h1 : fixOnePair fixed vals i v =
        (fixed, vals.set (fixed.indexOf i) v) := by
      unfold fixOnePair
      rw [if_pos hi]
    rw [h1]
    unfold fixOnePair
    rw [if_pos hi, List.set_set]
  · have h1 : fixOnePair fixed vals i v = (fixed ++ [i], vals ++ [v]) := by
      unfold fixOnePair
      rw [if_neg hi]
    rw [h1]
    unfold fixOnePair
    have hmem : i ∈ fixed ++ [i] :=
      List.mem_append_right _ (List.mem_cons_self _ _)
    rw [if_pos hmem, indexOf_append_not_mem fixed i hi]
    have hlt : vals.length < (vals ++ [v]).length := by simp
    have hget : (vals ++ [v]).get ⟨vals.length, hlt⟩ = v :=
      List.getElem_concat_length vals v _ rfl hlt
    have hset : (vals ++ [v]).set vals.length v = vals ++ [v] := by
      calc (vals ++ [v]).set vals.length v
          = (vals ++ [v]).set vals.length
              ((vals ++ [v]).get ⟨vals.length, hlt⟩) := by rw [hget]
        _ = vals ++ [v] := set_getElem_self _ _ hlt
    rw [hfv, hset]

/-- C5: idempotence of the partition mutation: on a renormalised,
consistent state, fixing `(i, v)` twice yields the same state as fixing it
once, and unfixing an index that is not fixed leaves the state unchanged
and raises no error. -/
theorem C5_idempotent_mutation (p : Problem) (i : Int) (v : Val) (j : Int)
    (hlb : p.lb_full.length = p.dim_full)
    (hub : p.ub_full.length = p.dim_full)
    (hg : p.x_guesses_full.width = p.dim_full)
    (hsc : p.x_scales.length = p.dim_full)
    (hna : p.x_names.length = p.dim_full)
    (hfv : p.x_fixed_indices.length = p.x_fixed_vals.length)
    (hj : j ∉ p.x_fixed_indices) :
    (p.fix_parameters [i] [v]).fix_parameters [i] [v] =
      p.fix_parameters [i] [v] ∧
    p.unfix_parameters [j] = p ∧
    normalizeError (p.unfix_parameters [j]) = none := by
  have h2 : p.unfix_parameters [j] = p := by
    rw [unfix_parameters_single]
    have hno : unfixOne p.x_fixed_indices p.x_fixed_vals j =
        (p.x_fixed_indices, p.x_fixed_vals) := by
      unfold unfixOne
      rw [if_neg hj]
    rw [hno]
    exact normalizeArrays_id p hlb hub hg
  refine ⟨?_, h2, by rw [h2]; simp [normalizeError, hlb, hub, hsc, hna, hfv]⟩
  have hq : p.fix_parameters [i] [v] = { p with
      x_fixed_indices := (fixOnePair p.x_fixed_indices p.x_fixed_vals i v).1
      x_fixed_vals := (fixOnePair p.x_fixed_indices p.x_fixed_vals i v).2 } := by
    rw [fix_parameters_single]
    exact normalizeArrays_id _ hlb hub hg
  rw [hq, fix_parameters_single]
  have hpair := fixOnePair_idem p.x_fixed_indices p.x_fixed_vals i v hfv
  rw [show ({ p with
      x_fixed_indices := (fixOnePair p.x_fixed_indices p.x_fixed_vals i v).1
      x_fixed_vals :=
        (fixOnePair p.x_fixed_indices p.x_fixed_vals i v).2 } :
        Problem).x_fixed_indices =
      (fixOnePair p.x_fixed_indices p.x_fixed_vals i v).1 from rfl,
    show ({ p with
      x_fixed_indices := (fixOnePair p.x_fixed_indices p.x_fixed_vals i v).1
      x_fixed_vals :=
        (fixOnePair p.x_fixed_indices p.x_fixed_vals i v).2 } :
        Problem).x_fixed_vals =
      (fixOnePair p.x_fixed_indices p.x_fixed_vals i v).2 from rfl,
    hpair]
  exact normalizeArrays_id _ hlb hub hg

/-- Witness for C5: Scenario B's state with `fix(1, 7)` twice and
`unfix(2)` (index 2 is free there). -/
theorem C5_idempotent_mutation_witness :
    (scenB.fix_parameters [1] [Val.num 7]).fix_parameters [1] [Val.num 7] =
      scenB.fix_parameters [1] [Val.num 7] ∧
    scenB.unfix_parameters [2] = scenB :=
  ⟨(C5_idempotent_mutation scenB 1 (Val.num 7) 2 (by decide) (by decide)
      (by decide) (by decide) (by decide) (by decide) (by decide)).1,
    (C5_idempotent_mutation scenB 1 (Val.num 7) 2 (by decide) (by decide)
      (by decide) (by decide) (by decide) (by decide) (by decide)).2.1⟩

/-! ## C6 -/

/-- C6: when the stored guesses matrix has row width different from
`dim_full`, renormalisation scatters each existing row into the
`x_free_indices` columns of a fresh NaN-filled matrix of width `dim_full`,
and every `x_fixed_indices` column remains NaN (fixed values are never
back-filled into guesses). -/
theorem C6_guesses_renormalization (p : Problem)
    (hrange : ∀ i ∈ p.x_fixed_indices, 0 ≤ i ∧ i < (p.dim_full : Int))
    (hw : p.x_guesses_full.width ≠ p.dim_full) :
    (normalizeArrays p).x_guesses_full.width = p.dim_full ∧
    (normalizeArrays p).x_guesses_full.rows.length =
      p.x_guesses_full.rows.length ∧
    ∀ k, k < p.x_guesses_full.rows.length →
      ((normalizeArrays p).x_guesses_full.rows.getD k []).length =
        p.dim_full ∧
      (∀ m, m < p.x_free_indices.length →
        m < (p.x_guesses_full.rows.getD k []).length →
        ((normalizeArrays p).x_guesses_full.rows.getD k []).getD
          (p.x_free_indices.getD m 0) Val.undef =
          (p.x_guesses_full.rows.getD k []).getD m Val.undef) ∧
      (∀ j : Nat, (j : Int) ∈ p.x_fixed_indices →
        ((normalizeArrays p).x_guesses_full.rows.getD k []).getD j
          Val.undef = Val.nan) := by
  have hrows : (normalizeArrays p).x_guesses_full.rows =
      p.x_guesses_full.rows.map (gfvRow p none) := by
    rw [normalizeArrays_guesses, if_pos hw]
    exact rfl
  refine ⟨?_, ?_, ?_⟩
  · rw [normalizeArrays_guesses, if_pos hw]
  · rw [hrows, List.length_map]
  · intro k hk
    have hkd : (normalizeArrays p).x_guesses_full.rows.getD k [] =
        gfvRow p none (p.x_guesses_full.rows.getD k []) := by
      rw [hrows,
        List.getD_eq_getElem _ _ (by rw [List.length_map]; exact hk),
        List.getElem_map, List.getD_eq_getElem _ _ hk]
    rw [hkd]
    exact ⟨gfvRow_length p none _,
      fun m hm hmr => gfvRow_free p none _ m Val.undef
        (fun i hi => (hrange i hi).1) hm hmr,
      fun j hj => gfvRow_fixed_nan p _ j Val.undef hrange hj⟩

/-- A state with a reduced-width (2-column) guesses matrix for Scenario B's
partition. -/
def c6State : Problem :=
  { scenB with x_guesses_full :=
      { width := 2, rows := [[Val.num 1, Val.num 2]] } }

/-- Witness for C6: the reduced guess row `[1, 2]` is expanded to width 3
and the fixed column 1 stays NaN. -/
theorem C6_guesses_renormalization_witness :
    (normalizeArrays c6State).x_guesses_full.width = c6State.dim_full ∧
    ((normalizeArrays c6State).x_guesses_full.rows.getD 0 []).getD 1
      Val.undef = Val.nan :=
  ⟨(C6_guesses_renormalization c6State (by decide) (by decide)).1,
    ((C6_guesses_renormalization c6State (by decide) (by decide)).2.2 0
      (by decide)).2.2 1 (by decide)⟩

/-! ## C7 -/

theorem normalizeArrays_dim_full (p : Problem) :
    (normalizeArrays p).dim_full = p.dim_full := rfl

theorem normalizeError_none_iff (q : Problem) :
    normalizeError q = none ↔
      (q.lb_full.length = q.dim_full ∧ q.ub_full.length = q.dim_full ∧
       q.x_scales.length = q.dim_full ∧ q.x_names.length = q.dim_full ∧
       q.x_fixed_indices.length = q.x_fixed_vals.length) := by
  unfold normalizeError
  split_ifs with h1 h2 h3 h4 h5 <;> simp_all

/-- C7: renormalisation raises the fatal dimension error exactly when, on
the state after the normalisation steps, one of the following fails:
`lb_full`, `ub_full`, `x_scales` or `x_names` has length `dim_full`, the
guesses matrix has width `dim_full`, or `x_fixed_indices` and
`x_fixed_vals` have equal length.  (After the steps the bound lengths and
the guesses width always equal `dim_full`, so the error reduces to the
scales/names/fixed checks, which is what the code tests.) -/
theorem C7_error_characterization (p : Problem) :
    (normalizeError (normalizeArrays p)).isSome = true ↔
      ((normalizeArrays p).lb_full.length ≠ p.dim_full ∨
       (normalizeArrays p).ub_full.length ≠ p.dim_full ∨
       (normalizeArrays p).x_scales.length ≠ p.dim_full ∨
       (normalizeArrays p).x_names.length ≠ p.dim_full ∨
       (normalizeArrays p).x_guesses_full.width ≠ p.dim_full ∨
       (normalizeArrays p).x_fixed_indices.length ≠
         (normalizeArrays p).x_fixed_vals.length) := by
  rw [Option.isSome_iff_ne_none, Ne, normalizeError_none_iff]
  simp only [normalizeArrays_dim_full, normalizeArrays_lb_length p,
    normalizeArrays_ub_length p, normalizeArrays_width p]
  tauto

/-! ## C2 -/

/-- Scenario B's partition with reduced-length (length-2) bound arrays, the
input on which the rebuild branch of `normalize` runs. -/
def c2State : Problem :=
  { scenB with
    lb_full := [Val.num 7, Val.num 8]
    ub_full := [Val.num 9, Val.num 11] }

/-- Scenario E: scalar bound broadcast, `lb = 0.0`, `dim_full = 4`. -/
def scenE : Problem :=
  { dim_full := 4
    lb_full := [Val.num 0]
    ub_full := [Val.num 1]
    x_fixed_indices := []
    x_fixed_vals := []
    x_guesses_full := { width := 4, rows := [] }
    x_names := ["x0", "x1", "x2", "x3"]
    x_scales := ["lin", "lin", "lin", "lin"] }

/-- C2: evaluation of the bound-rebuild branch of `normalize`.  On Scenario
B's partition with reduced bounds `lb = [7, 8]`, `ub = [9, 11]`, the claim
predicts `lb_full = [7, 5, 8]` (previously stored reduced values at the
free positions 0 and 2, the fixed value 5 at position 1); the code instead
reassigns `self.lb_full = np.empty(dim_full)` before reading `self.lb`, so
the free positions keep uninitialised memory and only the fixed position
receives a defined value.  The scalar-broadcast branch (Scenario E) does
behave as claimed. -/
theorem C2_normalize_bounds_eval :
    (normalizeArrays c2State).lb_full =
      [Val.undef, Val.num 5, Val.undef] ∧
    (normalizeArrays c2State).ub_full =
      [Val.undef, Val.num 5, Val.undef] ∧
    (normalizeArrays c2State).lb_full ≠ [Val.num 7, Val.num 5, Val.num 8] ∧
    (normalizeArrays scenE).lb_full =
      [Val.num 0, Val.num 0, Val.num 0, Val.num 0] := by
  decide

/-! ## C8 -/

/-- C8: at construction the objective's declared names take priority over
caller-supplied names and over the default, the default `['x0', 'x1', …]`
is used when neither the objective nor the caller supplies names, and no
later operation (renormalisation, fixing, unfixing) changes `x_names`. -/
theorem C8_names_priority :
    (∀ (ns : List String) (caller : Option (List String)) (d : Nat),
      ns ≠ [] → initXNames (some ns) caller d = ns) ∧
    (∀ d : Nat, initXNames none none d =
      (List.range d).map (fun j => "x" ++ toString j)) ∧
    initXNames none none 3 = ["x0", "x1", "x2"] ∧
    (∀ p : Problem, (normalizeArrays p).x_names = p.x_names) ∧
    (∀ (p : Problem) (idxs : List Int) (vals : List Val),
      (p.fix_parameters idxs vals).x_names = p.x_names) ∧
    (∀ (p : Problem) (idxs : List Int),
      (p.unfix_parameters idxs).x_names = p.x_names) := by
  refine ⟨fun ns c d h => rfl, fun d => rfl, ?_, fun p => rfl,
    fun p idxs vals => rfl, fun p idxs => rfl⟩
  decide

/-- Witness for C8: non-empty objective names win over supplied caller
names. -/
theorem C8_names_priority_witness :
    initXNames (some ["a", "b"]) (some ["c", "d"]) 2 = ["a", "b"] :=
  C8_names_priority.1 ["a", "b"] (some ["c", "d"]) 2 (by decide)

/-! ## C9 -/

/-- C9: `get_full_vector` dispatches on `len(x)`, the FIRST-axis length: an
input whose first axis has length `dim_full` is returned unchanged — even a
2-D batch whose last (parameter) axis has reduced length — and any other
input is scattered along its last axis into the free positions of a
NaN-filled full-width result. -/
theorem C9_first_axis_dispatch (p : Problem)
    (hrange : ∀ i ∈ p.x_fixed_indices, 0 ≤ i ∧ i < (p.dim_full : Int)) :
    (∀ (g : List (List Val)) (f : Option (List Val)),
      g.length = p.dim_full →
        p.get_full_vector_nd (Arr.mat g) f = Arr.mat g) ∧
    (∀ (g : List (List Val)) (f : Option (List Val)),
      g.length ≠ p.dim_full →
        p.get_full_vector_nd (Arr.mat g) f =
          Arr.mat (g.map (gfvRow p f))) ∧
    (∀ (l : List Val) (f : Option (List Val)),
      l.length ≠ p.dim_full →
        p.get_full_vector_nd (Arr.vec l) f = Arr.vec (gfvRow p f l)) ∧
    (∀ r : List Val,
      (gfvRow p none r).length = p.dim_full ∧
      (∀ m, m < p.x_free_indices.length → m < r.length →
        (gfvRow p none r).getD (p.x_free_indices.getD m 0) Val.undef =
          r.getD m Val.undef) ∧
      (∀ j : Nat, (j : Int) ∈ p.x_fixed_indices →
        (gfvRow p none r).getD j Val.undef = Val.nan)) := by
  refine ⟨?_, ?_, ?_, fun r => ⟨gfvRow_length p none r,
    fun m hm hmr => gfvRow_free p none r m Val.undef
      (fun i hi => (hrange i hi).1) hm hmr,
    fun j hj => gfvRow_fixed_nan p r j Val.undef hrange hj⟩⟩
  · intro g f hg
    unfold Problem.get_full_vector_nd
    rw [if_pos (show (Arr.mat g).len = p.dim_full from hg)]
  · intro g f hg
    unfold Problem.get_full_vector_nd
    rw [if_neg (show ¬(Arr.mat g).len = p.dim_full from hg)]
  · intro l f hl
    unfold Problem.get_full_vector_nd
    rw [if_neg (show ¬(Arr.vec l).len = p.dim_full from hl)]

/-- Witness for C9: a 3-row batch of reduced (length-2) rows on Scenario
B's state (`dim_full = 3`) is returned unchanged, not expanded. -/
theorem C9_first_axis_dispatch_witness :
    scenB.get_full_vector_nd
      (Arr.mat [[Val.num 1, Val.num 2], [Val.num 3, Val.num 4],
        [Val.num 5, Val.num 6]]) none =
      Arr.mat [[Val.num 1, Val.num 2], [Val.num 3, Val.num 4],
        [Val.num 5, Val.num 6]] :=
  (C9_first_axis_dispatch scenB (by decide)).1 _ none (by decide)
